import Mathlib

/-!
Verification of the 2D geometry toolkit in Geometry.cpp (B-Human code release).

The C++ code computes with IEEE floats; this development embeds the algorithms
over exact arithmetic: the square-root-free routines over the rationals, and the
two routines that call std::sqrt (circle-circle and line-circle intersection)
over the reals with Real.sqrt. Loops are embedded with an explicit fuel that is
large enough to cover every iteration the C++ loop performs, keeping the
original loop guard, so that the definitions evaluate on concrete inputs.
-/

namespace Geom

/-- Definition of a 2-component vector, mirroring Vector2f / Vector2i. -/
structure Vec2 (α : Type) where
  x : α
  y : α
deriving DecidableEq, Repr

/-- Definition of Geometry::Line: a base point and a direction vector. -/
structure Line (α : Type) where
  base : Vec2 α
  direction : Vec2 α
deriving DecidableEq, Repr

/-- Definition of Geometry::Circle: a center and a radius. -/
structure Circle (α : Type) where
  center : Vec2 α
  radius : α
deriving DecidableEq, Repr

/-- Difference of two vectors, mirroring Eigen vector subtraction. -/
def vsub {α : Type} [Sub α] (a b : Vec2 α) : Vec2 α := ⟨a.x - b.x, a.y - b.y⟩

/-- Dot product of two vectors, mirroring Eigen dot. -/
def vdot {α : Type} [Mul α] [Add α] (a b : Vec2 α) : α := a.x * b.x + a.y * b.y

/-- Squared Euclidean norm, mirroring Eigen squaredNorm. -/
def squaredNorm {α : Type} [Mul α] [Add α] (a : Vec2 α) : α := a.x * a.x + a.y * a.y

/-- Modelled from the spec: the helper sqr from BHMath.h is not among the
sampled sources; the spec uses it as the square of its argument (squared
radius, squared distance). -/
def sqr {α : Type} [Mul α] (x : α) : α := x * x

/-- Cross product of two 2D vectors (the scalar z-component), used to state
the claims about parallelism and orientation. -/
def cross2 {α : Type} [Mul α] [Sub α] (u v : Vec2 α) : α := u.x * v.y - u.y * v.x

/-- Translation of Geometry::ccw from Geometry.cpp lines 304-320: orientation
predicate with the exact collinearity tie-break of the source. -/
def ccw (p0 p1 p2 : Vec2 ℚ) : ℤ :=
  let dx1 := p1.x - p0.x
  let dy1 := p1.y - p0.y
  let dx2 := p2.x - p0.x
  let dy2 := p2.y - p0.y
  if dx1 * dy2 > dy1 * dx2 then 1
  else if dx1 * dy2 < dy1 * dx2 then -1
  else if dx1 * dx2 < 0 ∨ dy1 * dy2 < 0 then -1
  else if dx1 * dx1 + dy1 * dy1 ≥ dx2 * dx2 + dy2 * dy2 then 0
  else 1

/-- Translation of Geometry::getIntersectionOfLines from Geometry.cpp lines
97-119. The C++ function takes the output point by reference and returns a
bool; this embedding threads the output explicitly: the argument named
intersection holds the value of the output parameter before the call, and the
second component of the result holds its value after the call. -/
def getIntersectionOfLines (line1 line2 : Line ℚ) (intersection : Vec2 ℚ) : Bool × Vec2 ℚ :=
  if line1.direction.y * line2.direction.x = line1.direction.x * line2.direction.y then
    (false, intersection)
  else
    let ix := line1.base.x +
      line1.direction.x *
      (line1.base.y * line2.direction.x -
       line2.base.y * line2.direction.x +
       (-line1.base.x + line2.base.x) * line2.direction.y) /
      ((-line1.direction.y) * line2.direction.x + line1.direction.x * line2.direction.y)
    let iy := line1.base.y +
      line1.direction.y *
      (-line1.base.y * line2.direction.x +
       line2.base.y * line2.direction.x +
       (line1.base.x - line2.base.x) * line2.direction.y) /
      (line1.direction.y * line2.direction.x - line1.direction.x * line2.direction.y)
    (true, ⟨ix, iy⟩)

/-- Membership of a point on the infinite line given by base and direction,
used to state what an intersection point is. -/
def onLine (l : Line ℚ) (p : Vec2 ℚ) : Prop :=
  ∃ t : ℚ, p.x = l.base.x + t * l.direction.x ∧ p.y = l.base.y + t * l.direction.y

/-- Translation of Geometry::getIntersectionOfRaysFactor from Geometry.cpp
lines 194-207, with the output parameter factor threaded explicitly as in
getIntersectionOfLines. -/
def getIntersectionOfRaysFactor (ray1 ray2 : Line ℚ) (factor : ℚ) : Bool × ℚ :=
  let divisor := ray2.direction.x * ray1.direction.y - ray1.direction.x * ray2.direction.y
  if divisor = 0 then (false, factor)
  else
    let k := (ray2.direction.y * ray1.base.x - ray2.direction.y * ray2.base.x -
              ray2.direction.x * ray1.base.y + ray2.direction.x * ray2.base.y) / divisor
    let l := (ray1.direction.y * ray1.base.x - ray1.direction.y * ray2.base.x -
              ray1.direction.x * ray1.base.y + ray1.direction.x * ray2.base.y) / divisor
    if 0 ≤ k ∧ 0 ≤ l ∧ k ≤ 1 ∧ l ≤ 1 then (true, k) else (false, factor)

/-- Translation of the loop of Geometry::isPointInsideConvexPolygon from
Geometry.cpp lines 327-334. The loop guard of the source is kept; the extra
fuel argument only bounds the recursion and is chosen large enough in the
wrapper to cover every iteration of the C++ loop. -/
def insideLoop (polygon : List (Vec2 ℚ)) (point : Vec2 ℚ) (orientation : ℤ) :
    ℕ → ℕ → Bool
  | 0, _ => true
  | fuel + 1, i =>
    if i < polygon.length then
      let currentOrientation := ccw (polygon.getD i ⟨0, 0⟩)
        (polygon.getD ((i + 1) % polygon.length) ⟨0, 0⟩) point
      if currentOrientation = 0 then true
      else if currentOrientation ≠ orientation then false
      else insideLoop polygon point orientation fuel (i + 1)
    else true

/-- Translation of Geometry::isPointInsideConvexPolygon from Geometry.cpp
lines 322-336, with the vertex array and its length represented as a list. -/
def isPointInsideConvexPolygon (polygon : List (Vec2 ℚ)) (point : Vec2 ℚ) : Bool :=
  let orientation := ccw (polygon.getD 0 ⟨0, 0⟩) (polygon.getD 1 ⟨0, 0⟩) point
  if orientation = 0 then true
  else insideLoop polygon point orientation (polygon.length - 1) 1

/-- Orientation of the query point against the i-th polygon edge, the quantity
the loop of isPointInsideConvexPolygon computes in iteration i. -/
def edgeCcw (polygon : List (Vec2 ℚ)) (point : Vec2 ℚ) (i : ℕ) : ℤ :=
  ccw (polygon.getD i ⟨0, 0⟩) (polygon.getD ((i + 1) % polygon.length) ⟨0, 0⟩) point

/-- Translation of Geometry::circleIntersectsAxisAlignedRectangle from
Geometry.cpp lines 472-523: corner normalization by branching, a bounding-box
rejection phase, then a corner-distance rejection phase. -/
def circleIntersectsAxisAlignedRectangle (cp : Vec2 ℚ) (r : ℚ) (p1 p2 : Vec2 ℚ) : Bool :=
  let xMin := if p1.x < p2.x then p1.x else p2.x
  let xMax := if p1.x < p2.x then p2.x else p1.x
  let yMin := if p1.y < p2.y then p1.y else p2.y
  let yMax := if p1.y < p2.y then p2.y else p1.y
  if cp.x < xMin - r ∨ cp.x > xMax + r ∨ cp.y < yMin - r ∨ cp.y > yMax + r then
    false
  else
    let rSquare := sqr r
    if (cp.x < xMin ∧ cp.y < yMin ∧ squaredNorm (vsub cp ⟨xMin, yMin⟩) > rSquare) ∨
       (cp.x < xMin ∧ cp.y > yMax ∧ squaredNorm (vsub cp ⟨xMin, yMax⟩) > rSquare) ∨
       (cp.x > xMax ∧ cp.y < yMin ∧ squaredNorm (vsub cp ⟨xMax, yMin⟩) > rSquare) ∨
       (cp.x > xMax ∧ cp.y > yMax ∧ squaredNorm (vsub cp ⟨xMax, yMax⟩) > rSquare) then
      false
    else true

/-- Modelled from the spec: the sign helper sgn from BHMath.h is not among the
sampled sources; the spec describes a separate sign factor preserving the
direction of the walk, so a negative argument maps to -1 and a positive one
to 1. Its value at 0 is never used by calculatePixels. -/
def sgn (x : ℤ) : ℤ := if x < 0 then -1 else if 0 < x then 1 else 0

/-- Translation of the first loop of Geometry::PixeledLine::calculatePixels
from Geometry.cpp lines 77-81 (dominant x axis). The loop guard of the source
is kept; the fuel argument bounds the recursion and is chosen large enough in
calculatePixels to cover every iteration the C++ loop performs when the step
size is at least 1. The C++ division truncates toward zero, hence Int.tdiv. -/
def pixLoopX (x1 y1 x2 y2 stepSize numberOfPixels : ℤ) : ℕ → ℤ → List (ℤ × ℤ)
  | 0, _ => []
  | fuel + 1, x =>
    if x < numberOfPixels then
      let y := Int.tdiv (x * (y2 - y1)) (x2 - x1)
      (x1 + x * sgn (x2 - x1), y1 + y * sgn (x2 - x1)) ::
        pixLoopX x1 y1 x2 y2 stepSize numberOfPixels fuel (x + stepSize)
    else []

/-- Translation of the second loop of Geometry::PixeledLine::calculatePixels
from Geometry.cpp lines 88-92 (dominant y axis), embedded like pixLoopX. -/
def pixLoopY (x1 y1 x2 y2 stepSize numberOfPixels : ℤ) : ℕ → ℤ → List (ℤ × ℤ)
  | 0, _ => []
  | fuel + 1, y =>
    if y < numberOfPixels then
      let x := Int.tdiv (y * (x2 - x1)) (y2 - y1)
      (x1 + x * sgn (y2 - y1), y1 + y * sgn (y2 - y1)) ::
        pixLoopY x1 y1 x2 y2 stepSize numberOfPixels fuel (y + stepSize)
    else []

/-- Translation of Geometry::PixeledLine::calculatePixels from Geometry.cpp
lines 65-95. The result is the pixel sequence the constructor materializes.
When the endpoints differ and the step size is not positive the C++ loop never
terminates, which this embedding marks as none; in every other case the result
is some list. -/
def calculatePixels (x1 y1 x2 y2 stepSize : ℤ) : Option (List (ℤ × ℤ)) :=
  if x1 = x2 ∧ y1 = y2 then some [(x1, y1)]
  else if 1 ≤ stepSize then
    if |x2 - x1| > |y2 - y1| then
      some (pixLoopX x1 y1 x2 y2 stepSize (|x2 - x1| + 1) (|x2 - x1| + 1).toNat 0)
    else
      some (pixLoopY x1 y1 x2 y2 stepSize (|y2 - y1| + 1) (|y2 - y1| + 1).toNat 0)
  else none

/-- Update of the loop variable in both loops of calculatePixels: the C++
statement x += stepSize. -/
def pixStep (stepSize x : ℤ) : ℤ := x + stepSize

/-- Translation of Geometry::getIntersectionOfCircles from Geometry.cpp lines
121-164, over the reals with Real.sqrt, output parameters threaded
explicitly. -/
noncomputable def getIntersectionOfCircles (c0 c1 : Circle ℝ) (p1 p2 : Vec2 ℝ) :
    ℤ × Vec2 ℝ × Vec2 ℝ :=
  let dx := c1.center.x - c0.center.x
  let dy := c1.center.y - c0.center.y
  let d := Real.sqrt (dy * dy + dx * dx)
  if d > c0.radius + c1.radius then (0, p1, p2)
  else if d < |c0.radius - c1.radius| then (0, p1, p2)
  else
    let a := (c0.radius * c0.radius - c1.radius * c1.radius + d * d) / (2 * d)
    let x2 := c0.center.x + dx * a / d
    let y2 := c0.center.y + dy * a / d
    let h := Real.sqrt (c0.radius * c0.radius - a * a)
    let rx := -dy * (h / d)
    let ry := dx * (h / d)
    let q1 : Vec2 ℝ := ⟨x2 + rx, y2 + ry⟩
    let q2 : Vec2 ℝ := ⟨x2 - rx, y2 - ry⟩
    (if q1 = q2 then 1 else 2, q1, q2)

/-- Translation of Geometry::getIntersectionOfLineAndCircle from Geometry.cpp
lines 166-192, over the reals with Real.sqrt, output parameters threaded
explicitly. The divisions by the squared direction norm are performed before
any test, exactly as in the source. -/
noncomputable def getIntersectionOfLineAndCircle (line : Line ℝ) (circle : Circle ℝ)
    (firstIntersection secondIntersection : Vec2 ℝ) : ℤ × Vec2 ℝ × Vec2 ℝ :=
  let divisor := squaredNorm line.direction
  let p := 2 * (vdot line.base line.direction - vdot circle.center line.direction) / divisor
  let q := (squaredNorm (vsub line.base circle.center) - sqr circle.radius) / divisor
  let p_2 := p / 2
  let radicand := sqr p_2 - q
  if radicand < 0 then (0, firstIntersection, secondIntersection)
  else
    let radix := Real.sqrt radicand
    let i1 : Vec2 ℝ := ⟨line.base.x + line.direction.x * (-p_2 + radix),
                        line.base.y + line.direction.y * (-p_2 + radix)⟩
    let i2 : Vec2 ℝ := ⟨line.base.x + line.direction.x * (-p_2 - radix),
                        line.base.y + line.direction.y * (-p_2 - radix)⟩
    (if radicand = 0 then 1 else 2, i1, i2)

/-- Center distance d computed by getIntersectionOfCircles, the divisor of its
divisions. -/
noncomputable def circlesCenterDist (c0 c1 : Circle ℝ) : ℝ :=
  Real.sqrt ((c1.center.y - c0.center.y) * (c1.center.y - c0.center.y) +
    (c1.center.x - c0.center.x) * (c1.center.x - c0.center.x))

/-- Exact condition under which getIntersectionOfCircles passes both guards
and reaches its divisions by d. -/
noncomputable def circlesSolvable (c0 c1 : Circle ℝ) : Prop :=
  ¬(circlesCenterDist c0 c1 > c0.radius + c1.radius) ∧
  ¬(circlesCenterDist c0 c1 < |c0.radius - c1.radius|)

/-- Offset a along the center line computed by getIntersectionOfCircles. -/
noncomputable def circlesA (c0 c1 : Circle ℝ) : ℝ :=
  (c0.radius * c0.radius - c1.radius * c1.radius +
    circlesCenterDist c0 c1 * circlesCenterDist c0 c1) / (2 * circlesCenterDist c0 c1)

/-- Perpendicular height h computed by getIntersectionOfCircles. -/
noncomputable def circlesH (c0 c1 : Circle ℝ) : ℝ :=
  Real.sqrt (c0.radius * c0.radius - circlesA c0 c1 * circlesA c0 c1)

/-- Divisor of the divisions in getIntersectionOfLineAndCircle: the squared
norm of the direction, divided by without any preceding check. -/
def lineCircleDivisor (line : Line ℝ) : ℝ := squaredNorm line.direction

/-- Exact parallelism condition checked by getIntersectionOfLines before its
divisions. -/
def linesParallelCheck (line1 line2 : Line ℚ) : Prop :=
  line1.direction.y * line2.direction.x = line1.direction.x * line2.direction.y

/-- Divisor of the x-coordinate division in getIntersectionOfLines. -/
def linesDivisorX (line1 line2 : Line ℚ) : ℚ :=
  (-line1.direction.y) * line2.direction.x + line1.direction.x * line2.direction.y

/-- Divisor of the y-coordinate division in getIntersectionOfLines. -/
def linesDivisorY (line1 line2 : Line ℚ) : ℚ :=
  line1.direction.y * line2.direction.x - line1.direction.x * line2.direction.y

/-- Divisor of the divisions in getIntersectionOfRaysFactor, compared with
zero by its guard. -/
def raysDivisor (ray1 ray2 : Line ℚ) : ℚ :=
  ray2.direction.x * ray1.direction.y - ray1.direction.x * ray2.direction.y

end Geom

namespace Geom

/-- C2: ccw returns 1 when p2 is strictly left of the directed segment from p0
to p1 (positive cross product of p1 - p0 and p2 - p0), -1 when strictly right;
in the collinear case it returns -1 when the two difference vectors have
opposite signs along some axis, and otherwise returns 0 exactly when the
squared length of p1 - p0 is at least that of p2 - p0, else 1; and for every
pair p0 different from p1 and every p2 strictly between them on the segment,
ccw p0 p1 p2 = 0. -/
theorem ccw_characterization :
    (∀ p0 p1 p2 : Vec2 ℚ,
      (0 < cross2 (vsub p1 p0) (vsub p2 p0) → ccw p0 p1 p2 = 1) ∧
      (cross2 (vsub p1 p0) (vsub p2 p0) < 0 → ccw p0 p1 p2 = -1) ∧
      (cross2 (vsub p1 p0) (vsub p2 p0) = 0 →
        ((vsub p1 p0).x * (vsub p2 p0).x < 0 ∨ (vsub p1 p0).y * (vsub p2 p0).y < 0) →
        ccw p0 p1 p2 = -1) ∧
      (cross2 (vsub p1 p0) (vsub p2 p0) = 0 →
        ¬((vsub p1 p0).x * (vsub p2 p0).x < 0 ∨ (vsub p1 p0).y * (vsub p2 p0).y < 0) →
        ((ccw p0 p1 p2 = 0 ↔ squaredNorm (vsub p2 p0) ≤ squaredNorm (vsub p1 p0)) ∧
         (ccw p0 p1 p2 = 1 ↔ squaredNorm (vsub p1 p0) < squaredNorm (vsub p2 p0))))) ∧
    (∀ (p0 p1 : Vec2 ℚ) (t : ℚ), p0 ≠ p1 → 0 < t → t < 1 →
      ccw p0 p1 ⟨p0.x + t * (p1.x - p0.x), p0.y + t * (p1.y - p0.y)⟩ = 0) := by
  constructor
  · intro p0 p1 p2
    refine ⟨?_, ?_, ?_, ?_⟩
    · intro h
      simp only [cross2, vsub] at h
      simp only [ccw]
      rw [if_pos (by linarith)]
    · intro h
      simp only [cross2, vsub] at h
      simp only [ccw]
      rw [if_neg (by linarith), if_pos (by linarith)]
    · intro h hop
      simp only [cross2, vsub] at h hop
      simp only [ccw]
      rw [if_neg (by linarith), if_neg (by linarith), if_pos hop]
    · intro h hop
      simp only [cross2, vsub] at h hop
      simp only [ccw, squaredNorm, vsub]
      rw [if_neg (by linarith), if_neg (by linarith), if_neg hop]
      constructor
      · constructor
        · intro h0
          by_contra hc
          rw [if_neg (by linarith)] at h0
          exact absurd h0 (by decide)
        · intro hle
          rw [if_pos (by linarith)]
      · constructor
        · intro h1
          by_contra hc
          rw [if_pos (by linarith)] at h1
          exact absurd h1 (by decide)
        · intro hlt
          rw [if_neg (by linarith)]
  · intro p0 p1 t hne ht0 ht1
    simp only [ccw]
    have hx : p0.x + t * (p1.x - p0.x) - p0.x = t * (p1.x - p0.x) := by ring
    have hy : p0.y + t * (p1.y - p0.y) - p0.y = t * (p1.y - p0.y) := by ring
    rw [hx, hy]
    have hc1 : ¬((p1.x - p0.x) * (t * (p1.y - p0.y)) > (p1.y - p0.y) * (t * (p1.x - p0.x))) := by
      nlinarith [sq_nonneg (p1.x - p0.x), sq_nonneg (p1.y - p0.y)]
    have hc2 : ¬((p1.x - p0.x) * (t * (p1.y - p0.y)) < (p1.y - p0.y) * (t * (p1.x - p0.x))) := by
      nlinarith [sq_nonneg (p1.x - p0.x), sq_nonneg (p1.y - p0.y)]
    have hc3 : ¬((p1.x - p0.x) * (t * (p1.x - p0.x)) < 0 ∨
        (p1.y - p0.y) * (t * (p1.y - p0.y)) < 0) := by
      push_neg
      constructor
      · nlinarith [sq_nonneg (p1.x - p0.x)]
      · nlinarith [sq_nonneg (p1.y - p0.y)]
    have hc4 : (p1.x - p0.x) * (p1.x - p0.x) + (p1.y - p0.y) * (p1.y - p0.y) ≥
        t * (p1.x - p0.x) * (t * (p1.x - p0.x)) + t * (p1.y - p0.y) * (t * (p1.y - p0.y)) := by
      nlinarith [sq_nonneg (p1.x - p0.x), sq_nonneg (p1.y - p0.y),
        mul_nonneg (mul_nonneg ht0.le ht0.le) (sq_nonneg (p1.x - p0.x)),
        mul_nonneg (mul_nonneg ht0.le ht0.le) (sq_nonneg (p1.y - p0.y)),
        mul_nonneg (mul_nonneg (sub_nonneg.mpr ht1.le) ht0.le)
          (add_nonneg (mul_self_nonneg (p1.x - p0.x)) (mul_self_nonneg (p1.y - p0.y)))]
    rw [if_neg hc1, if_neg hc2, if_neg hc3, if_pos hc4]

/-- Witness for ccw_characterization: evaluates the clauses at concrete points,
including a strictly-between collinear configuration. -/
theorem ccw_characterization_witness :
    ccw ⟨0, 0⟩ ⟨1, 0⟩ ⟨1, 1⟩ = 1 ∧ ccw ⟨0, 0⟩ ⟨2, 0⟩ ⟨1, 0⟩ = 0 := by
  constructor
  · exact (ccw_characterization.1 ⟨0, 0⟩ ⟨1, 0⟩ ⟨1, 1⟩).1 (by norm_num [cross2, vsub])
  · have h := ccw_characterization.2 ⟨0, 0⟩ ⟨2, 0⟩ (1 / 2)
      (by intro hc; exact absurd (congrArg Vec2.x hc) (by norm_num)) (by norm_num) (by norm_num)
    have hpt : (⟨0 + 1 / 2 * (2 - 0), 0 + 1 / 2 * (0 - 0)⟩ : Vec2 ℚ) = ⟨1, 0⟩ := by norm_num
    rw [hpt] at h
    exact h

/-- Helper: shifting a base constant across a common division. -/
theorem base_shift_div {A b c P Q : ℚ} (hA : A ≠ 0) (h : P - Q = (c - b) * A) :
    b + P / A = c + Q / A := by
  have h1 : P / A - Q / A = c - b := by
    rw [div_sub_div_same, h, mul_div_assoc, div_self hA, mul_one]
  linarith

/-- Helper: shifting a base constant across divisions with two denominators. -/
theorem base_shift_div2 {A B b c P Q : ℚ} (hA : A ≠ 0) (hB : B ≠ 0)
    (h : P * A - B * Q = (c - b) * (B * A)) : b + P / B = c + Q / A := by
  have h1 : P / B - Q / A = c - b := by
    rw [div_sub_div _ _ hB hA, h, mul_div_assoc, div_self (mul_ne_zero hB hA), mul_one]
  linarith

/-- C3: getIntersectionOfLines returns false exactly when the cross product of
the two direction vectors is zero; otherwise it returns true and the written
point is the unique point lying on both infinite lines. Lines with equal
direction yield false for all base points, and the two concrete axis lines of
the claim intersect in the origin. -/
theorem getIntersectionOfLines_spec :
    (∀ (line1 line2 : Line ℚ) (out : Vec2 ℚ),
      ((getIntersectionOfLines line1 line2 out).1 = false ↔
        cross2 line1.direction line2.direction = 0) ∧
      ((getIntersectionOfLines line1 line2 out).1 = true →
        onLine line1 (getIntersectionOfLines line1 line2 out).2 ∧
        onLine line2 (getIntersectionOfLines line1 line2 out).2 ∧
        ∀ q : Vec2 ℚ, onLine line1 q → onLine line2 q →
          q = (getIntersectionOfLines line1 line2 out).2)) ∧
    (∀ b1 b2 out : Vec2 ℚ,
      (getIntersectionOfLines ⟨b1, ⟨1, 0⟩⟩ ⟨b2, ⟨1, 0⟩⟩ out).1 = false) ∧
    getIntersectionOfLines ⟨⟨0, 0⟩, ⟨1, 0⟩⟩ ⟨⟨0, -1⟩, ⟨0, 1⟩⟩ ⟨9, 9⟩ = (true, ⟨0, 0⟩) := by
  refine ⟨?_, ?_, ?_⟩
  · intro line1 line2 out
    obtain ⟨⟨b1x, b1y⟩, ⟨d1x, d1y⟩⟩ := line1
    obtain ⟨⟨b2x, b2y⟩, ⟨d2x, d2y⟩⟩ := line2
    by_cases hpar : d1y * d2x = d1x * d2y
    · refine ⟨?_, ?_⟩
      · simp only [getIntersectionOfLines, if_pos hpar, cross2]
        exact ⟨fun _ => by linarith, fun _ => by trivial⟩
      · simp only [getIntersectionOfLines, if_pos hpar]
        intro h
        exact absurd h (by decide)
    · have hA : -d1y * d2x + d1x * d2y ≠ 0 := fun h => hpar (by linarith)
      have hB : d1y * d2x - d1x * d2y ≠ 0 := fun h => hpar (by linarith)
      refine ⟨?_, ?_⟩
      · simp only [getIntersectionOfLines, if_neg hpar, cross2]
        constructor
        · intro h
          exact absurd h (by decide)
        · intro h
          exact absurd (show d1y * d2x = d1x * d2y by linarith) hpar
      · intro _
        simp only [getIntersectionOfLines, if_neg hpar]
        refine ⟨?_, ?_, ?_⟩
        · refine ⟨(b1y * d2x - b2y * d2x + (-b1x + b2x) * d2y) / (-d1y * d2x + d1x * d2y),
            by ring, ?_⟩
          show b1y + d1y * (-b1y * d2x + b2y * d2x + (b1x - b2x) * d2y) /
              (d1y * d2x - d1x * d2y) = _
          rw [div_mul_eq_mul_div]
          exact base_shift_div2 hA hB (by ring)
        · refine ⟨(d1y * (b2x - b1x) - d1x * (b2y - b1y)) / (-d1y * d2x + d1x * d2y), ?_, ?_⟩
          · show b1x + d1x * (b1y * d2x - b2y * d2x + (-b1x + b2x) * d2y) /
                (-d1y * d2x + d1x * d2y) = _
            rw [div_mul_eq_mul_div]
            exact base_shift_div hA (by ring)
          · show b1y + d1y * (-b1y * d2x + b2y * d2x + (b1x - b2x) * d2y) /
                (d1y * d2x - d1x * d2y) = _
            rw [div_mul_eq_mul_div]
            exact base_shift_div2 hA hB (by ring)
        · rintro ⟨qx, qy⟩ ⟨a, hax, hay⟩ ⟨c, hcx, hcy⟩
          have e1 : b1x + a * d1x = b2x + c * d2x := by
            simp only at hax hcx
            linarith [hax, hcx]
          have e2 : b1y + a * d1y = b2y + c * d2y := by
            simp only at hay hcy
            linarith [hay, hcy]
          have key : a * (-d1y * d2x + d1x * d2y) =
              b1y * d2x - b2y * d2x + (-b1x + b2x) * d2y := by
            linear_combination d2y * e1 - d2x * e2
          have ha2 : a = (b1y * d2x - b2y * d2x + (-b1x + b2x) * d2y) /
              (-d1y * d2x + d1x * d2y) := by
            rw [eq_div_iff hA]
            linear_combination key
          simp only at hax hay
          simp only [Vec2.mk.injEq]
          constructor
          · rw [hax, ha2]
            ring
          · rw [hay, ha2]
            show _ = b1y + d1y * (-b1y * d2x + b2y * d2x + (b1x - b2x) * d2y) /
                (d1y * d2x - d1x * d2y)
            rw [div_mul_eq_mul_div]
            exact base_shift_div2 hB hA (by ring)
  · intro b1 b2 out
    simp [getIntersectionOfLines]
  · norm_num [getIntersectionOfLines, Prod.ext_iff, Vec2.mk.injEq]

/-- Witness for getIntersectionOfLines_spec: the two concrete axis lines
intersect, and the computed point lies on both lines. -/
theorem getIntersectionOfLines_spec_witness :
    onLine ⟨⟨0, 0⟩, ⟨1, 0⟩⟩ (getIntersectionOfLines ⟨⟨0, 0⟩, ⟨1, 0⟩⟩ ⟨⟨0, -1⟩, ⟨0, 1⟩⟩ ⟨9, 9⟩).2 ∧
    onLine ⟨⟨0, -1⟩, ⟨0, 1⟩⟩ (getIntersectionOfLines ⟨⟨0, 0⟩, ⟨1, 0⟩⟩ ⟨⟨0, -1⟩, ⟨0, 1⟩⟩ ⟨9, 9⟩).2 := by
  have h := (getIntersectionOfLines_spec.1 ⟨⟨0, 0⟩, ⟨1, 0⟩⟩ ⟨⟨0, -1⟩, ⟨0, 1⟩⟩ ⟨9, 9⟩).2
    (by norm_num [getIntersectionOfLines])
  exact ⟨h.1, h.2.1⟩

/-- C5: getIntersectionOfRaysFactor returns true exactly when the directions
are not parallel and the two parametric factors of the intersection along the
two segments both lie in the closed interval from 0 to 1; on success the
stored value is the factor along the first ray. -/
theorem getIntersectionOfRaysFactor_spec :
    ∀ (ray1 ray2 : Line ℚ) (f0 : ℚ),
      ((getIntersectionOfRaysFactor ray1 ray2 f0).1 = true ↔
        (cross2 ray1.direction ray2.direction ≠ 0 ∧
         ∃ k l : ℚ, 0 ≤ k ∧ k ≤ 1 ∧ 0 ≤ l ∧ l ≤ 1 ∧
           ray1.base.x + k * ray1.direction.x = ray2.base.x + l * ray2.direction.x ∧
           ray1.base.y + k * ray1.direction.y = ray2.base.y + l * ray2.direction.y)) ∧
      ((getIntersectionOfRaysFactor ray1 ray2 f0).1 = true →
        ∃ l : ℚ, 0 ≤ (getIntersectionOfRaysFactor ray1 ray2 f0).2 ∧
          (getIntersectionOfRaysFactor ray1 ray2 f0).2 ≤ 1 ∧ 0 ≤ l ∧ l ≤ 1 ∧
          ray1.base.x + (getIntersectionOfRaysFactor ray1 ray2 f0).2 * ray1.direction.x =
            ray2.base.x + l * ray2.direction.x ∧
          ray1.base.y + (getIntersectionOfRaysFactor ray1 ray2 f0).2 * ray1.direction.y =
            ray2.base.y + l * ray2.direction.y) := by
  intro ray1 ray2 f0
  obtain ⟨⟨b1x, b1y⟩, ⟨d1x, d1y⟩⟩ := ray1
  obtain ⟨⟨b2x, b2y⟩, ⟨d2x, d2y⟩⟩ := ray2
  by_cases hD : d2x * d1y - d1x * d2y = 0
  · constructor
    · simp only [getIntersectionOfRaysFactor, if_pos hD, cross2]
      constructor
      · intro h
        exact absurd h (by decide)
      · rintro ⟨hc, -⟩
        exact absurd (show d1x * d2y - d1y * d2x = 0 by linarith) hc
    · simp only [getIntersectionOfRaysFactor, if_pos hD]
      intro h
      exact absurd h (by decide)
  · have huk : ∀ k l : ℚ,
        b1x + k * d1x = b2x + l * d2x → b1y + k * d1y = b2y + l * d2y →
        k = (d2y * b1x - d2y * b2x - d2x * b1y + d2x * b2y) / (d2x * d1y - d1x * d2y) ∧
        l = (d1y * b1x - d1y * b2x - d1x * b1y + d1x * b2y) / (d2x * d1y - d1x * d2y) := by
      intro k l e1 e2
      constructor
      · rw [eq_div_iff hD]
        linear_combination d2x * e2 - d2y * e1
      · rw [eq_div_iff hD]
        linear_combination d1x * e2 - d1y * e1
    have hex : b1x + ((d2y * b1x - d2y * b2x - d2x * b1y + d2x * b2y) /
          (d2x * d1y - d1x * d2y)) * d1x =
        b2x + ((d1y * b1x - d1y * b2x - d1x * b1y + d1x * b2y) /
          (d2x * d1y - d1x * d2y)) * d2x := by
      rw [div_mul_eq_mul_div, div_mul_eq_mul_div]
      exact base_shift_div hD (by ring)
    have hey : b1y + ((d2y * b1x - d2y * b2x - d2x * b1y + d2x * b2y) /
          (d2x * d1y - d1x * d2y)) * d1y =
        b2y + ((d1y * b1x - d1y * b2x - d1x * b1y + d1x * b2y) /
          (d2x * d1y - d1x * d2y)) * d2y := by
      rw [div_mul_eq_mul_div, div_mul_eq_mul_div]
      exact base_shift_div hD (by ring)
    by_cases hkl : 0 ≤ (d2y * b1x - d2y * b2x - d2x * b1y + d2x * b2y) /
          (d2x * d1y - d1x * d2y) ∧
        0 ≤ (d1y * b1x - d1y * b2x - d1x * b1y + d1x * b2y) / (d2x * d1y - d1x * d2y) ∧
        (d2y * b1x - d2y * b2x - d2x * b1y + d2x * b2y) / (d2x * d1y - d1x * d2y) ≤ 1 ∧
        (d1y * b1x - d1y * b2x - d1x * b1y + d1x * b2y) / (d2x * d1y - d1x * d2y) ≤ 1
    · constructor
      · simp only [getIntersectionOfRaysFactor, if_neg hD, if_pos hkl, cross2]
        constructor
        · intro _
          exact ⟨fun hc => hD (by linarith),
            (d2y * b1x - d2y * b2x - d2x * b1y + d2x * b2y) / (d2x * d1y - d1x * d2y),
            (d1y * b1x - d1y * b2x - d1x * b1y + d1x * b2y) / (d2x * d1y - d1x * d2y),
            hkl.1, hkl.2.2.1, hkl.2.1, hkl.2.2.2, hex, hey⟩
        · intro _
          trivial
      · simp only [getIntersectionOfRaysFactor, if_neg hD, if_pos hkl]
        intro _
        exact ⟨(d1y * b1x - d1y * b2x - d1x * b1y + d1x * b2y) / (d2x * d1y - d1x * d2y),
          hkl.1, hkl.2.2.1, hkl.2.1, hkl.2.2.2, hex, hey⟩
    · constructor
      · simp only [getIntersectionOfRaysFactor, if_neg hD, if_neg hkl, cross2]
        constructor
        · intro h
          first
          | exact h.elim
          | exact absurd h (by decide)
        · rintro ⟨-, k, l, hk0, hk1, hl0, hl1, e1, e2⟩
          obtain ⟨hkv, hlv⟩ := huk k l e1 e2
          exact absurd ⟨hkv ▸ hk0, hlv ▸ hl0, hkv ▸ hk1, hlv ▸ hl1⟩ hkl
      · simp only [getIntersectionOfRaysFactor, if_neg hD, if_neg hkl]
        intro h
        first
        | exact h.elim
        | exact absurd h (by decide)

/-- Witness for getIntersectionOfRaysFactor_spec: two concrete crossing
segments intersect with factor one half along the first segment. -/
theorem getIntersectionOfRaysFactor_spec_witness :
    ∃ l : ℚ, 0 ≤ (getIntersectionOfRaysFactor ⟨⟨0, 0⟩, ⟨1, 0⟩⟩ ⟨⟨1/2, -1⟩, ⟨0, 2⟩⟩ 9).2 ∧
      (getIntersectionOfRaysFactor ⟨⟨0, 0⟩, ⟨1, 0⟩⟩ ⟨⟨1/2, -1⟩, ⟨0, 2⟩⟩ 9).2 ≤ 1 ∧
      0 ≤ l ∧ l ≤ 1 ∧
      (0 : ℚ) + (getIntersectionOfRaysFactor ⟨⟨0, 0⟩, ⟨1, 0⟩⟩ ⟨⟨1/2, -1⟩, ⟨0, 2⟩⟩ 9).2 * 1 =
        1/2 + l * 0 ∧
      (0 : ℚ) + (getIntersectionOfRaysFactor ⟨⟨0, 0⟩, ⟨1, 0⟩⟩ ⟨⟨1/2, -1⟩, ⟨0, 2⟩⟩ 9).2 * 0 =
        -1 + l * 2 := by
  exact (getIntersectionOfRaysFactor_spec ⟨⟨0, 0⟩, ⟨1, 0⟩⟩ ⟨⟨1/2, -1⟩, ⟨0, 2⟩⟩ 9).2
    (by norm_num [getIntersectionOfRaysFactor])

/-- Helper: the loop returns true when every remaining edge orientation agrees
with the reference orientation. -/
theorem insideLoop_true_of_agree (polygon : List (Vec2 ℚ)) (point : Vec2 ℚ) (ori : ℤ)
    (hori : ori ≠ 0) :
    ∀ fuel i : ℕ, (∀ j, i ≤ j → j < polygon.length → edgeCcw polygon point j = ori) →
      insideLoop polygon point ori fuel i = true := by
  intro fuel
  induction fuel with
  | zero => intro i _; rfl
  | succ fuel ih =>
    intro i h
    simp only [insideLoop]
    by_cases hi : i < polygon.length
    · rw [if_pos hi]
      have hcur := h i le_rfl hi
      simp only [edgeCcw] at hcur
      rw [hcur, if_neg hori, if_neg (fun hc => hc rfl)]
      exact ih (i + 1) (fun j hj hjn => h j (Nat.le_of_succ_le hj) hjn)
    · rw [if_neg hi]

/-- Helper: the loop returns true as soon as it meets an edge with orientation
zero, provided every earlier edge it visits agrees with the reference. -/
theorem insideLoop_true_of_zero (polygon : List (Vec2 ℚ)) (point : Vec2 ℚ) (ori : ℤ)
    (hori : ori ≠ 0) :
    ∀ fuel i k : ℕ, i ≤ k → k < polygon.length → edgeCcw polygon point k = 0 →
      (∀ j, i ≤ j → j < k → edgeCcw polygon point j = ori) →
      insideLoop polygon point ori fuel i = true := by
  intro fuel
  induction fuel with
  | zero => intro i k _ _ _ _; rfl
  | succ fuel ih =>
    intro i k hik hk hzero h
    simp only [insideLoop]
    rw [if_pos (lt_of_le_of_lt hik hk)]
    rcases Nat.eq_or_lt_of_le hik with heq | hlt
    · subst heq
      simp only [edgeCcw] at hzero
      rw [hzero, if_pos rfl]
    · have hcur := h i le_rfl hlt
      simp only [edgeCcw] at hcur
      rw [hcur, if_neg hori, if_neg (fun hc => hc rfl)]
      exact ih (i + 1) k hlt hk hzero (fun j hj hjk => h j (Nat.le_of_succ_le hj) hjk)

/-- Helper: the loop returns false as soon as it meets an edge whose nonzero
orientation differs from the reference, provided the fuel reaches that edge
and every earlier edge agrees with the reference. -/
theorem insideLoop_false_of_flip (polygon : List (Vec2 ℚ)) (point : Vec2 ℚ) (ori : ℤ)
    (hori : ori ≠ 0) :
    ∀ fuel i k : ℕ, i ≤ k → k < polygon.length → edgeCcw polygon point k ≠ ori →
      edgeCcw polygon point k ≠ 0 →
      (∀ j, i ≤ j → j < k → edgeCcw polygon point j = ori) →
      k - i < fuel →
      insideLoop polygon point ori fuel i = false := by
  intro fuel
  induction fuel with
  | zero => intro i k _ _ _ _ _ hf; exact absurd hf (by omega)
  | succ fuel ih =>
    intro i k hik hk hflip hzero h hf
    simp only [insideLoop]
    rw [if_pos (lt_of_le_of_lt hik hk)]
    rcases Nat.eq_or_lt_of_le hik with heq | hlt
    · subst heq
      simp only [edgeCcw] at hflip hzero
      rw [if_neg hzero, if_pos hflip]
    · have hcur := h i le_rfl hlt
      simp only [edgeCcw] at hcur
      rw [hcur, if_neg hori, if_neg (fun hc => hc rfl)]
      exact ih (i + 1) k hlt hk hflip hzero
        (fun j hj hjk => h j (Nat.le_of_succ_le hj) hjk) (by omega)

/-- Helper: for a polygon with at least two vertices, the orientation computed
before the loop of isPointInsideConvexPolygon is the edge-0 orientation. -/
theorem edgeCcw_zero_eq (polygon : List (Vec2 ℚ)) (point : Vec2 ℚ)
    (h2 : 2 ≤ polygon.length) :
    edgeCcw polygon point 0 =
      ccw (polygon.getD 0 ⟨0, 0⟩) (polygon.getD 1 ⟨0, 0⟩) point := by
  simp only [edgeCcw, Nat.zero_add]
  rw [Nat.mod_eq_of_lt (by omega)]

/-- C6: for every polygon with at least 3 vertices, isPointInsideConvexPolygon
returns true when the first edge test is zero; true when the first deviating
edge test in scan order is zero; false when the first deviating edge test in
scan order is nonzero; true when every edge test agrees with the first; and on
the unit square the point (1/2, 1/2) is inside, (2, 2) is outside, and the
on-edge point (0, 1/2) is inside. -/
theorem isPointInsideConvexPolygon_spec :
    (∀ (polygon : List (Vec2 ℚ)) (point : Vec2 ℚ), 3 ≤ polygon.length →
      (edgeCcw polygon point 0 = 0 → isPointInsideConvexPolygon polygon point = true) ∧
      (∀ i, 1 ≤ i → i < polygon.length → edgeCcw polygon point i = 0 →
        (∀ j, 1 ≤ j → j < i → edgeCcw polygon point j = edgeCcw polygon point 0) →
        isPointInsideConvexPolygon polygon point = true) ∧
      (∀ i, 1 ≤ i → i < polygon.length →
        edgeCcw polygon point i ≠ edgeCcw polygon point 0 →
        edgeCcw polygon point i ≠ 0 →
        edgeCcw polygon point 0 ≠ 0 →
        (∀ j, 1 ≤ j → j < i → edgeCcw polygon point j = edgeCcw polygon point 0) →
        isPointInsideConvexPolygon polygon point = false) ∧
      ((∀ i, i < polygon.length → edgeCcw polygon point i = edgeCcw polygon point 0) →
        isPointInsideConvexPolygon polygon point = true)) ∧
    (isPointInsideConvexPolygon [⟨0, 0⟩, ⟨1, 0⟩, ⟨1, 1⟩, ⟨0, 1⟩] ⟨1/2, 1/2⟩ = true ∧
     isPointInsideConvexPolygon [⟨0, 0⟩, ⟨1, 0⟩, ⟨1, 1⟩, ⟨0, 1⟩] ⟨2, 2⟩ = false ∧
     isPointInsideConvexPolygon [⟨0, 0⟩, ⟨1, 0⟩, ⟨1, 1⟩, ⟨0, 1⟩] ⟨0, 1/2⟩ = true) := by
  constructor
  · intro polygon point h3
    have h2 : 2 ≤ polygon.length := by omega
    have he0 := edgeCcw_zero_eq polygon point h2
    refine ⟨?_, ?_, ?_, ?_⟩
    · intro h0
      rw [he0] at h0
      simp only [isPointInsideConvexPolygon]
      rw [if_pos h0]
    · intro i hi1 hin hzero hpre
      by_cases hori : edgeCcw polygon point 0 = 0
      · rw [he0] at hori
        simp only [isPointInsideConvexPolygon]
        rw [if_pos hori]
      · simp only [isPointInsideConvexPolygon]
        rw [if_neg (he0 ▸ hori)]
        rw [← he0]
        exact insideLoop_true_of_zero polygon point _ hori _ 1 i hi1 hin hzero hpre
    · intro i hi1 hin hflip hizero hori hpre
      simp only [isPointInsideConvexPolygon]
      rw [if_neg (he0 ▸ hori)]
      rw [← he0]
      exact insideLoop_false_of_flip polygon point _ hori _ 1 i hi1 hin hflip hizero hpre
        (by omega)
    · intro hall
      by_cases hori : edgeCcw polygon point 0 = 0
      · rw [he0] at hori
        simp only [isPointInsideConvexPolygon]
        rw [if_pos hori]
      · simp only [isPointInsideConvexPolygon]
        rw [if_neg (he0 ▸ hori)]
        rw [← he0]
        exact insideLoop_true_of_agree polygon point _ hori _ 1
          (fun j _ hjn => hall j hjn)
  · refine ⟨?_, ?_, ?_⟩
    · norm_num [isPointInsideConvexPolygon, insideLoop, ccw,
        List.getD_cons_zero, List.getD_cons_succ]
    · norm_num [isPointInsideConvexPolygon, insideLoop, ccw,
        List.getD_cons_zero, List.getD_cons_succ]
    · norm_num [isPointInsideConvexPolygon, insideLoop, ccw,
        List.getD_cons_zero, List.getD_cons_succ]

/-- Witness for isPointInsideConvexPolygon_spec: a point on the bottom edge of
the unit square makes the first edge test zero, and the function reports it
inside. -/
theorem isPointInsideConvexPolygon_spec_witness :
    isPointInsideConvexPolygon [⟨0, 0⟩, ⟨1, 0⟩, ⟨1, 1⟩, ⟨0, 1⟩] ⟨1/2, 0⟩ = true := by
  exact (isPointInsideConvexPolygon_spec.1 [⟨0, 0⟩, ⟨1, 0⟩, ⟨1, 1⟩, ⟨0, 1⟩] ⟨1/2, 0⟩
    (by norm_num)).1
    (by norm_num [edgeCcw, ccw, List.getD_cons_zero, List.getD_cons_succ])

/-- C7: circleIntersectsAxisAlignedRectangle normalizes the two corners to the
per-axis minimum and maximum and returns false exactly when either the circle
center is more than the radius outside the rectangle along some axis, or the
center lies beyond one of the four corners in both axes with squared corner
distance exceeding the squared radius; otherwise it returns true. The two
concrete circles of the claim against the rectangle from (0,0) to (10,10)
behave as stated. -/
theorem circleIntersectsAxisAlignedRectangle_spec :
    (∀ (cp : Vec2 ℚ) (r : ℚ) (p1 p2 : Vec2 ℚ),
      circleIntersectsAxisAlignedRectangle cp r p1 p2 = false ↔
        ((cp.x < min p1.x p2.x - r ∨ cp.x > max p1.x p2.x + r ∨
          cp.y < min p1.y p2.y - r ∨ cp.y > max p1.y p2.y + r) ∨
         ((cp.x < min p1.x p2.x ∧ cp.y < min p1.y p2.y ∧
            squaredNorm (vsub cp ⟨min p1.x p2.x, min p1.y p2.y⟩) > sqr r) ∨
          (cp.x < min p1.x p2.x ∧ cp.y > max p1.y p2.y ∧
            squaredNorm (vsub cp ⟨min p1.x p2.x, max p1.y p2.y⟩) > sqr r) ∨
          (cp.x > max p1.x p2.x ∧ cp.y < min p1.y p2.y ∧
            squaredNorm (vsub cp ⟨max p1.x p2.x, min p1.y p2.y⟩) > sqr r) ∨
          (cp.x > max p1.x p2.x ∧ cp.y > max p1.y p2.y ∧
            squaredNorm (vsub cp ⟨max p1.x p2.x, max p1.y p2.y⟩) > sqr r)))) ∧
    circleIntersectsAxisAlignedRectangle ⟨-1, -1⟩ 1 ⟨0, 0⟩ ⟨10, 10⟩ = false ∧
    circleIntersectsAxisAlignedRectangle ⟨-1/2, -1/2⟩ 1 ⟨0, 0⟩ ⟨10, 10⟩ = true := by
  refine ⟨?_, ?_, ?_⟩
  · intro cp r p1 p2
    simp only [circleIntersectsAxisAlignedRectangle]
    have hxmin : (if p1.x < p2.x then p1.x else p2.x) = min p1.x p2.x := by
      split_ifs with h
      · exact (min_eq_left h.le).symm
      · exact (min_eq_right (not_lt.mp h)).symm
    have hxmax : (if p1.x < p2.x then p2.x else p1.x) = max p1.x p2.x := by
      split_ifs with h
      · exact (max_eq_right h.le).symm
      · exact (max_eq_left (not_lt.mp h)).symm
    have hymin : (if p1.y < p2.y then p1.y else p2.y) = min p1.y p2.y := by
      split_ifs with h
      · exact (min_eq_left h.le).symm
      · exact (min_eq_right (not_lt.mp h)).symm
    have hymax : (if p1.y < p2.y then p2.y else p1.y) = max p1.y p2.y := by
      split_ifs with h
      · exact (max_eq_right h.le).symm
      · exact (max_eq_left (not_lt.mp h)).symm
    rw [hxmin, hxmax, hymin, hymax]
    split_ifs with h1 h2
    · simp only [eq_self_iff_true, true_iff]
      exact Or.inl h1
    · simp only [eq_self_iff_true, true_iff]
      exact Or.inr h2
    · constructor
      · intro h
        exact absurd h (by decide)
      · intro h
        rcases h with h | h
        · exact absurd h h1
        · exact absurd h h2
  · norm_num [circleIntersectsAxisAlignedRectangle, sqr, squaredNorm, vsub]
  · norm_num [circleIntersectsAxisAlignedRectangle, sqr, squaredNorm, vsub]

/-- Helper: the x-dominant pixel loop emits one pixel per step of stepSize
until the loop variable reaches numberOfPixels, a ceiling division count. -/
theorem pixLoopX_length (x1 y1 x2 y2 s N : ℤ) (hs : 1 ≤ s) :
    ∀ (fuel : ℕ) (x : ℤ), (N - x).toNat ≤ fuel →
      (pixLoopX x1 y1 x2 y2 s N fuel x).length =
        ((N - x).toNat + s.toNat - 1) / s.toNat := by
  intro fuel
  induction fuel with
  | zero =>
    intro x hx
    simp only [pixLoopX, List.length_nil]
    have h0 : (N - x).toNat = 0 := Nat.le_zero.mp hx
    rw [h0, Nat.zero_add]
    exact (Nat.div_eq_of_lt (by omega)).symm
  | succ fuel ih =>
    intro x hx
    simp only [pixLoopX]
    by_cases hxN : x < N
    · rw [if_pos hxN]
      simp only [List.length_cons]
      rw [ih (x + s) (by omega)]
      have hst : 1 ≤ s.toNat := by omega
      have hm : 1 ≤ (N - x).toNat := by omega
      by_cases hcase : (N - x).toNat ≤ s.toNat
      · have h1 : (N - (x + s)).toNat = 0 := by omega
        have e1 : (N - x).toNat + s.toNat - 1 = (N - x).toNat - 1 + s.toNat := by omega
        rw [h1, Nat.zero_add, Nat.div_eq_of_lt (by omega), e1,
          Nat.add_div_right _ (by omega), Nat.div_eq_of_lt (by omega)]
      · have h3 : (N - (x + s)).toNat = (N - x).toNat - s.toNat := by omega
        have e1 : (N - x).toNat - s.toNat + s.toNat - 1 =
            (N - x).toNat - s.toNat - 1 + s.toNat := by omega
        have e2 : (N - x).toNat + s.toNat - 1 = (N - x).toNat - 1 + s.toNat := by omega
        have e3 : (N - x).toNat - 1 = (N - x).toNat - s.toNat - 1 + s.toNat := by omega
        rw [h3, e1, Nat.add_div_right _ (by omega), e2, Nat.add_div_right _ (by omega),
          e3, Nat.add_div_right _ (by omega)]
    · rw [if_neg hxN]
      simp only [List.length_nil]
      have h0 : (N - x).toNat = 0 := by omega
      rw [h0, Nat.zero_add]
      exact (Nat.div_eq_of_lt (by omega)).symm

/-- Helper: the y-dominant pixel loop has the same ceiling division count. -/
theorem pixLoopY_length (x1 y1 x2 y2 s N : ℤ) (hs : 1 ≤ s) :
    ∀ (fuel : ℕ) (y : ℤ), (N - y).toNat ≤ fuel →
      (pixLoopY x1 y1 x2 y2 s N fuel y).length =
        ((N - y).toNat + s.toNat - 1) / s.toNat := by
  intro fuel
  induction fuel with
  | zero =>
    intro y hy
    simp only [pixLoopY, List.length_nil]
    have h0 : (N - y).toNat = 0 := Nat.le_zero.mp hy
    rw [h0, Nat.zero_add]
    exact (Nat.div_eq_of_lt (by omega)).symm
  | succ fuel ih =>
    intro y hy
    simp only [pixLoopY]
    by_cases hyN : y < N
    · rw [if_pos hyN]
      simp only [List.length_cons]
      rw [ih (y + s) (by omega)]
      have hst : 1 ≤ s.toNat := by omega
      have hm : 1 ≤ (N - y).toNat := by omega
      by_cases hcase : (N - y).toNat ≤ s.toNat
      · have h1 : (N - (y + s)).toNat = 0 := by omega
        have e1 : (N - y).toNat + s.toNat - 1 = (N - y).toNat - 1 + s.toNat := by omega
        rw [h1, Nat.zero_add, Nat.div_eq_of_lt (by omega), e1,
          Nat.add_div_right _ (by omega), Nat.div_eq_of_lt (by omega)]
      · have h3 : (N - (y + s)).toNat = (N - y).toNat - s.toNat := by omega
        have e1 : (N - y).toNat - s.toNat + s.toNat - 1 =
            (N - y).toNat - s.toNat - 1 + s.toNat := by omega
        have e2 : (N - y).toNat + s.toNat - 1 = (N - y).toNat - 1 + s.toNat := by omega
        have e3 : (N - y).toNat - 1 = (N - y).toNat - s.toNat - 1 + s.toNat := by omega
        rw [h3, e1, Nat.add_div_right _ (by omega), e2, Nat.add_div_right _ (by omega),
          e3, Nat.add_div_right _ (by omega)]
    · rw [if_neg hyN]
      simp only [List.length_nil]
      have h0 : (N - y).toNat = 0 := by omega
      rw [h0, Nat.zero_add]
      exact (Nat.div_eq_of_lt (by omega)).symm

/-- C8: the pixel sequence from (0,0) to (4,0) with step 1 is exactly the five
pixels (0,0), (1,0), (2,0), (3,0), (4,0) in order, and coincident endpoints
produce the single pixel at that point for every step size. -/
theorem pixeledLine_spec :
    calculatePixels 0 0 4 0 1 = some [(0, 0), (1, 0), (2, 0), (3, 0), (4, 0)] ∧
    ∀ x1 y1 s : ℤ, calculatePixels x1 y1 x1 y1 s = some [(x1, y1)] := by
  constructor
  · decide
  · intro x1 y1 s
    simp [calculatePixels]

/-- C9: for every step size at least 1, calculatePixels terminates with one
pixel for coincident endpoints and otherwise exactly the ceiling of
(max(abs dx, abs dy) + 1) / stepSize pixels; with a step size at most 0 and
distinct endpoints the embedding yields none because the C++ loop never
terminates, the loop variable never advancing past the guard under pixStep
with step 0. -/
theorem calculatePixels_termination :
    (∀ x1 y1 x2 y2 s : ℤ, 1 ≤ s →
      ∃ l : List (ℤ × ℤ), calculatePixels x1 y1 x2 y2 s = some l ∧
        l.length = if x1 = x2 ∧ y1 = y2 then 1
          else ((max |x2 - x1| |y2 - y1| + 1).toNat + s.toNat - 1) / s.toNat) ∧
    (∀ x1 y1 x2 y2 s : ℤ, ¬(x1 = x2 ∧ y1 = y2) → s ≤ 0 →
      calculatePixels x1 y1 x2 y2 s = none) ∧
    (∀ (N : ℤ) (k : ℕ), 1 ≤ N → (pixStep 0)^[k] 0 < N) := by
  refine ⟨?_, ?_, ?_⟩
  · intro x1 y1 x2 y2 s hs
    by_cases hco : x1 = x2 ∧ y1 = y2
    · refine ⟨[(x1, y1)], by simp only [calculatePixels, if_pos hco], ?_⟩
      rw [if_pos hco]
      rfl
    · simp only [calculatePixels, if_neg hco, if_pos hs]
      by_cases hax : |x2 - x1| > |y2 - y1|
      · rw [if_pos hax]
        refine ⟨_, rfl, ?_⟩
        rw [pixLoopX_length x1 y1 x2 y2 s (|x2 - x1| + 1) hs _ 0 (by omega),
          max_eq_left hax.le]
        norm_num
      · rw [if_neg hax]
        refine ⟨_, rfl, ?_⟩
        rw [pixLoopY_length x1 y1 x2 y2 s (|y2 - y1| + 1) hs _ 0 (by omega),
          max_eq_right (not_lt.mp hax)]
        norm_num
  · intro x1 y1 x2 y2 s hco hs
    simp only [calculatePixels, if_neg hco, if_neg (show ¬(1 : ℤ) ≤ s by omega)]
  · intro N k hN
    induction k with
    | zero => simpa using hN
    | succ k ih =>
      rw [Function.iterate_succ_apply]
      have h0 : pixStep 0 0 = 0 := by simp [pixStep]
      rw [h0]
      exact ih

/-- Witness for calculatePixels_termination: the line from (0,0) to (4,0) with
step 1 terminates with the claimed pixel count. -/
theorem calculatePixels_termination_witness :
    ∃ l : List (ℤ × ℤ), calculatePixels 0 0 4 0 1 = some l ∧
      l.length = if (0 : ℤ) = 4 ∧ (0 : ℤ) = 0 then 1
        else ((max |(4 : ℤ) - 0| |(0 : ℤ) - 0| + 1).toNat + (1 : ℤ).toNat - 1) /
          (1 : ℤ).toNat := by
  exact calculatePixels_termination.1 0 0 4 0 1 (by norm_num)

/-- Helper: the square root of 100 is 10. -/
theorem sqrt_hundred : Real.sqrt 100 = 10 := by
  rw [show (100 : ℝ) = 10 ^ 2 by norm_num]
  exact Real.sqrt_sq (by norm_num)

/-- Counterexample to C1: for two unit circles both centered at the origin,
getIntersectionOfCircles passes both guards and reaches its divisions by the
center distance d although d equals 0, so not every division is preceded by a
check that its divisor is nonzero. -/
theorem division_guard_counterexample :
    circlesSolvable ⟨⟨0, 0⟩, 1⟩ ⟨⟨0, 0⟩, 1⟩ ∧
    circlesCenterDist ⟨⟨0, 0⟩, 1⟩ ⟨⟨0, 0⟩, 1⟩ = 0 := by
  have hd : circlesCenterDist (⟨⟨0, 0⟩, 1⟩ : Circle ℝ) ⟨⟨0, 0⟩, 1⟩ = 0 := by
    simp only [circlesCenterDist]
    norm_num
  refine ⟨?_, hd⟩
  simp only [circlesSolvable, hd]
  norm_num

/-- C1 amended: the divisions of getIntersectionOfLines and
getIntersectionOfRaysFactor are guarded by exact equality-to-zero checks (a
parallel pair returns false before any division, and past the check the
divisors are nonzero); but getIntersectionOfCircles reaches its divisions by
the center distance with divisor 0 for concentric equal circles, and
getIntersectionOfLineAndCircle divides by the squared norm of the direction
with no preceding check, which is 0 for a zero-direction line, the division
path still being taken. -/
theorem division_guards_amended :
    (∀ (line1 line2 : Line ℚ) (out : Vec2 ℚ), linesParallelCheck line1 line2 →
      getIntersectionOfLines line1 line2 out = (false, out)) ∧
    (∀ line1 line2 : Line ℚ, ¬linesParallelCheck line1 line2 →
      linesDivisorX line1 line2 ≠ 0 ∧ linesDivisorY line1 line2 ≠ 0) ∧
    (∀ (ray1 ray2 : Line ℚ) (f0 : ℚ), raysDivisor ray1 ray2 = 0 →
      getIntersectionOfRaysFactor ray1 ray2 f0 = (false, f0)) ∧
    (circlesSolvable ⟨⟨0, 0⟩, 1⟩ ⟨⟨0, 0⟩, 1⟩ ∧
      circlesCenterDist ⟨⟨0, 0⟩, 1⟩ ⟨⟨0, 0⟩, 1⟩ = 0) ∧
    (lineCircleDivisor ⟨⟨0, 0⟩, ⟨0, 0⟩⟩ = 0 ∧
      (getIntersectionOfLineAndCircle ⟨⟨0, 0⟩, ⟨0, 0⟩⟩ ⟨⟨5, 5⟩, 1⟩ ⟨7, 7⟩ ⟨8, 8⟩).1 = 1) := by
  refine ⟨?_, ?_, ?_, ?_, ?_, ?_⟩
  · intro line1 line2 out h
    simp only [linesParallelCheck] at h
    simp only [getIntersectionOfLines, if_pos h]
  · intro line1 line2 h
    simp only [linesParallelCheck] at h
    constructor
    · simp only [linesDivisorX]
      intro hc
      exact h (by linarith)
    · simp only [linesDivisorY]
      intro hc
      exact h (by linarith)
  · intro ray1 ray2 f0 h
    simp only [raysDivisor] at h
    simp only [getIntersectionOfRaysFactor, if_pos h]
  · have hd : circlesCenterDist (⟨⟨0, 0⟩, 1⟩ : Circle ℝ) ⟨⟨0, 0⟩, 1⟩ = 0 := by
      simp only [circlesCenterDist]
      norm_num
    refine ⟨?_, hd⟩
    simp only [circlesSolvable, hd]
    norm_num
  · simp only [lineCircleDivisor, squaredNorm]
    norm_num
  · simp only [getIntersectionOfLineAndCircle, squaredNorm, vdot, vsub, sqr]
    norm_num

/-- Witness for division_guards_amended: concrete parallel pairs return false
untouched, and a concrete non-parallel pair has nonzero divisors. -/
theorem division_guards_amended_witness :
    getIntersectionOfLines ⟨⟨0, 0⟩, ⟨1, 0⟩⟩ ⟨⟨3, 3⟩, ⟨1, 0⟩⟩ ⟨7, 7⟩ = (false, ⟨7, 7⟩) ∧
    (linesDivisorX ⟨⟨0, 0⟩, ⟨1, 0⟩⟩ ⟨⟨0, 0⟩, ⟨0, 1⟩⟩ ≠ 0 ∧
     linesDivisorY ⟨⟨0, 0⟩, ⟨1, 0⟩⟩ ⟨⟨0, 0⟩, ⟨0, 1⟩⟩ ≠ 0) ∧
    getIntersectionOfRaysFactor ⟨⟨0, 0⟩, ⟨1, 0⟩⟩ ⟨⟨3, 3⟩, ⟨2, 0⟩⟩ 5 = (false, 5) := by
  refine ⟨?_, ?_, ?_⟩
  · exact division_guards_amended.1 ⟨⟨0, 0⟩, ⟨1, 0⟩⟩ ⟨⟨3, 3⟩, ⟨1, 0⟩⟩ ⟨7, 7⟩
      (by norm_num [linesParallelCheck])
  · exact division_guards_amended.2.1 ⟨⟨0, 0⟩, ⟨1, 0⟩⟩ ⟨⟨0, 0⟩, ⟨0, 1⟩⟩
      (by norm_num [linesParallelCheck])
  · exact division_guards_amended.2.2.1 ⟨⟨0, 0⟩, ⟨1, 0⟩⟩ ⟨⟨3, 3⟩, ⟨2, 0⟩⟩ 5
      (by norm_num [raysDivisor])

/-- C4: getIntersectionOfCircles returns 0 exactly when the center distance d
exceeds the radius sum or is below the radius difference; otherwise it writes
the two candidate points of the radical-line construction, offset a along the
center line and height h perpendicular to it, and returns 1 when the two
written points coincide, else 2. The tangent circles of radius 5 centered at
(0,0) and (10,0) give return value 1 with the single point (5,0). -/
theorem getIntersectionOfCircles_spec :
    (∀ (c0 c1 : Circle ℝ) (p1 p2 : Vec2 ℝ),
      ((getIntersectionOfCircles c0 c1 p1 p2).1 = 0 ↔
        (circlesCenterDist c0 c1 > c0.radius + c1.radius ∨
         circlesCenterDist c0 c1 < |c0.radius - c1.radius|)) ∧
      (circlesSolvable c0 c1 →
        (getIntersectionOfCircles c0 c1 p1 p2).2.1 =
          ⟨c0.center.x + circlesA c0 c1 / circlesCenterDist c0 c1 *
              (c1.center.x - c0.center.x) -
            circlesH c0 c1 / circlesCenterDist c0 c1 * (c1.center.y - c0.center.y),
           c0.center.y + circlesA c0 c1 / circlesCenterDist c0 c1 *
              (c1.center.y - c0.center.y) +
            circlesH c0 c1 / circlesCenterDist c0 c1 * (c1.center.x - c0.center.x)⟩ ∧
        (getIntersectionOfCircles c0 c1 p1 p2).2.2 =
          ⟨c0.center.x + circlesA c0 c1 / circlesCenterDist c0 c1 *
              (c1.center.x - c0.center.x) +
            circlesH c0 c1 / circlesCenterDist c0 c1 * (c1.center.y - c0.center.y),
           c0.center.y + circlesA c0 c1 / circlesCenterDist c0 c1 *
              (c1.center.y - c0.center.y) -
            circlesH c0 c1 / circlesCenterDist c0 c1 * (c1.center.x - c0.center.x)⟩) ∧
      (circlesSolvable c0 c1 →
        (getIntersectionOfCircles c0 c1 p1 p2).1 =
          if (getIntersectionOfCircles c0 c1 p1 p2).2.1 =
              (getIntersectionOfCircles c0 c1 p1 p2).2.2 then 1 else 2)) ∧
    getIntersectionOfCircles ⟨⟨0, 0⟩, 5⟩ ⟨⟨10, 0⟩, 5⟩ ⟨9, 9⟩ ⟨8, 8⟩ = (1, ⟨5, 0⟩, ⟨5, 0⟩) := by
  constructor
  · intro c0 c1 p1 p2
    obtain ⟨⟨c0x, c0y⟩, r0⟩ := c0
    obtain ⟨⟨c1x, c1y⟩, r1⟩ := c1
    simp only [getIntersectionOfCircles, circlesCenterDist, circlesSolvable, circlesA,
      circlesH]
    by_cases h1 : Real.sqrt ((c1y - c0y) * (c1y - c0y) + (c1x - c0x) * (c1x - c0x)) > r0 + r1
    · rw [if_pos h1]
      refine ⟨⟨fun _ => Or.inl h1, fun _ => rfl⟩, ?_, ?_⟩
      · rintro ⟨ha, -⟩
        exact absurd h1 ha
      · rintro ⟨ha, -⟩
        exact absurd h1 ha
    · rw [if_neg h1]
      by_cases h2 : Real.sqrt ((c1y - c0y) * (c1y - c0y) + (c1x - c0x) * (c1x - c0x)) <
          |r0 - r1|
      · rw [if_pos h2]
        refine ⟨⟨fun _ => Or.inr h2, fun _ => rfl⟩, ?_, ?_⟩
        · rintro ⟨-, hb⟩
          exact absurd h2 hb
        · rintro ⟨-, hb⟩
          exact absurd h2 hb
      · rw [if_neg h2]
        refine ⟨?_, ?_, ?_⟩
        · constructor
          · intro h
            split_ifs at h <;> norm_num at h
          · rintro (h | h)
            · exact absurd h h1
            · exact absurd h h2
        · intro _
          constructor
          · simp only [Vec2.mk.injEq]
            constructor <;> ring
          · simp only [Vec2.mk.injEq]
            constructor <;> ring
        · intro _
          rfl
  · have hs : Real.sqrt (((0 : ℝ) - 0) * (0 - 0) + (10 - 0) * (10 - 0)) = 10 := by
      norm_num [sqrt_hundred]
    simp only [getIntersectionOfCircles]
    rw [hs]
    norm_num [Vec2.mk.injEq, Prod.ext_iff]

/-- Witness for getIntersectionOfCircles_spec: the tangent circles pass both
guards, and the returned count matches the coincidence test of the two
written points. -/
theorem getIntersectionOfCircles_spec_witness :
    (getIntersectionOfCircles ⟨⟨0, 0⟩, 5⟩ ⟨⟨10, 0⟩, 5⟩ ⟨9, 9⟩ ⟨8, 8⟩).1 =
      if (getIntersectionOfCircles ⟨⟨0, 0⟩, 5⟩ ⟨⟨10, 0⟩, 5⟩ ⟨9, 9⟩ ⟨8, 8⟩).2.1 =
          (getIntersectionOfCircles ⟨⟨0, 0⟩, 5⟩ ⟨⟨10, 0⟩, 5⟩ ⟨9, 9⟩ ⟨8, 8⟩).2.2
        then 1 else 2 := by
  refine (getIntersectionOfCircles_spec.1 ⟨⟨0, 0⟩, 5⟩ ⟨⟨10, 0⟩, 5⟩ ⟨9, 9⟩ ⟨8, 8⟩).2.2 ?_
  have hs : circlesCenterDist (⟨⟨0, 0⟩, 5⟩ : Circle ℝ) ⟨⟨10, 0⟩, 5⟩ = 10 := by
    simp only [circlesCenterDist]
    norm_num [sqrt_hundred]
  simp only [circlesSolvable, hs]
  norm_num

/-- C10: whenever one of the four intersection routines fails (false or count
0), every output parameter is returned unchanged; outputs are written only on
the success paths. -/
theorem failure_leaves_outputs_unchanged :
    (∀ (line1 line2 : Line ℚ) (out : Vec2 ℚ),
      (getIntersectionOfLines line1 line2 out).1 = false →
      (getIntersectionOfLines line1 line2 out).2 = out) ∧
    (∀ (ray1 ray2 : Line ℚ) (f0 : ℚ),
      (getIntersectionOfRaysFactor ray1 ray2 f0).1 = false →
      (getIntersectionOfRaysFactor ray1 ray2 f0).2 = f0) ∧
    (∀ (c0 c1 : Circle ℝ) (p1 p2 : Vec2 ℝ),
      (getIntersectionOfCircles c0 c1 p1 p2).1 = 0 →
      (getIntersectionOfCircles c0 c1 p1 p2).2 = (p1, p2)) ∧
    (∀ (line : Line ℝ) (circle : Circle ℝ) (f1 s2 : Vec2 ℝ),
      (getIntersectionOfLineAndCircle line circle f1 s2).1 = 0 →
      (getIntersectionOfLineAndCircle line circle f1 s2).2 = (f1, s2)) := by
  refine ⟨?_, ?_, ?_, ?_⟩
  · intro line1 line2 out
    simp only [getIntersectionOfLines]
    split_ifs
    · intro _
      rfl
    · intro h
      exact absurd h (by decide)
  · intro ray1 ray2 f0
    simp only [getIntersectionOfRaysFactor]
    split_ifs
    · intro _
      rfl
    · intro h
      exact absurd h (by decide)
    · intro _
      rfl
  · intro c0 c1 p1 p2
    simp only [getIntersectionOfCircles]
    split_ifs
    · intro _
      rfl
    · intro _
      rfl
    · intro h
      norm_num at h
    · intro h
      norm_num at h
  · intro line circle f1 s2
    simp only [getIntersectionOfLineAndCircle]
    split_ifs
    · intro _
      rfl
    · intro h
      norm_num at h
    · intro h
      norm_num at h

/-- Witness for failure_leaves_outputs_unchanged: concrete failing calls of
all four routines leave the previous output values in place. -/
theorem failure_leaves_outputs_unchanged_witness :
    (getIntersectionOfLines ⟨⟨0, 0⟩, ⟨1, 0⟩⟩ ⟨⟨0, 1⟩, ⟨1, 0⟩⟩ ⟨7, 7⟩).2 = ⟨7, 7⟩ ∧
    (getIntersectionOfRaysFactor ⟨⟨0, 0⟩, ⟨1, 0⟩⟩ ⟨⟨0, 1⟩, ⟨1, 0⟩⟩ 7).2 = 7 ∧
    (getIntersectionOfCircles ⟨⟨0, 0⟩, 1⟩ ⟨⟨10, 0⟩, 1⟩ ⟨7, 7⟩ ⟨8, 8⟩).2 = (⟨7, 7⟩, ⟨8, 8⟩) ∧
    (getIntersectionOfLineAndCircle ⟨⟨0, 0⟩, ⟨1, 0⟩⟩ ⟨⟨0, 5⟩, 1⟩ ⟨7, 7⟩ ⟨8, 8⟩).2 =
      (⟨7, 7⟩, ⟨8, 8⟩) := by
  refine ⟨?_, ?_, ?_, ?_⟩
  · exact failure_leaves_outputs_unchanged.1 ⟨⟨0, 0⟩, ⟨1, 0⟩⟩ ⟨⟨0, 1⟩, ⟨1, 0⟩⟩ ⟨7, 7⟩
      (by norm_num [getIntersectionOfLines])
  · exact failure_leaves_outputs_unchanged.2.1 ⟨⟨0, 0⟩, ⟨1, 0⟩⟩ ⟨⟨0, 1⟩, ⟨1, 0⟩⟩ 7
      (by norm_num [getIntersectionOfRaysFactor])
  · refine failure_leaves_outputs_unchanged.2.2.1 ⟨⟨0, 0⟩, 1⟩ ⟨⟨10, 0⟩, 1⟩ ⟨7, 7⟩ ⟨8, 8⟩ ?_
    have hs : Real.sqrt (((0 : ℝ) - 0) * (0 - 0) + (10 - 0) * (10 - 0)) = 10 := by
      norm_num [sqrt_hundred]
    simp only [getIntersectionOfCircles]
    rw [hs]
    norm_num
  · refine failure_leaves_outputs_unchanged.2.2.2 ⟨⟨0, 0⟩, ⟨1, 0⟩⟩ ⟨⟨0, 5⟩, 1⟩ ⟨7, 7⟩ ⟨8, 8⟩ ?_
    simp only [getIntersectionOfLineAndCircle, squaredNorm, vdot, vsub, sqr]
    norm_num

end Geom
